import Mathlib

/-!
Verification of the double-entry ledger / wallet reservation-settlement core
(app/ledger.py, app/wallet.py, demo/reconcile.py) against its specification.

Shallow embedding conventions:
* Python Decimal amounts are modelled as rationals (every finite decimal is a
  rational; the code performs only addition, negation and comparison, which
  agree with rational arithmetic).
* Account-key strings of the form scope:id:currency:bucket are modelled by the
  inductive type Account; the builders _account_user_available,
  _account_user_reserved, _account_platform_fees and the literal keys built by
  wallet.py correspond to its constructors, and the string parsing in
  post_transaction (acc.split, parts comparisons) corresponds to matching on
  the constructor.
* The two database tables are a list of ledger records (append-only) and a
  total map from (user_id, currency) to the (available, reserved) pair of the
  Wallet row; a (user_id, currency) key with no row is represented by the
  zero pair, which matches the code: rows are lazily created with zero
  balances and the reconciler reads a missing row as zero.
* uuid4 transaction ids are modelled by a counter nextTx (the only property
  the code needs from uuid4 is freshness).
* A raised Python exception is an Except.error; the session rollback/close
  on an exception means the state is unchanged on failure, which is how
  runState interprets an error result.
-/

/-- The bucket suffix of a user account key (available or reserved). -/
inductive Bucket where
  | available : Bucket
  | reserved : Bucket
deriving DecidableEq

/-- Account keys. user uid cur b is the string user:uid:cur:b built by
_account_user_available / _account_user_reserved; platformFees cur is
platform:fees:cur from _account_platform_fees; extBank cur is the
external bank funding key written by wallet.deposit. -/
inductive Account where
  | user : Int → String → Bucket → Account
  | platformFees : String → Account
  | extBank : String → Account
deriving DecidableEq

/-- One element of the entries list passed to post_transaction:
a dict with an account and a signed amount. -/
structure Entry where
  account : Account
  amount : ℚ
deriving DecidableEq

/-- A row of the ledger table (model of the Ledger ORM record; created_at is
not modelled, no claim mentions it). -/
structure LedgerRec where
  tx_id : Nat
  account : Account
  amount : ℚ
  entry_type : String
  ref : Option String
deriving DecidableEq

/-- The database state: the append-only ledger table, the wallet table as a
total map (user_id, currency) to (available, reserved), and the fresh
transaction-id counter. -/
structure DBState where
  ledger : List LedgerRec
  wallets : Int → String → ℚ × ℚ
  nextTx : Nat

/-- The empty database. -/
def initState : DBState :=
  { ledger := [], wallets := fun _ _ => (0, 0), nextTx := 0 }

/-- Apply a signed amount to one bucket of a wallet pair
(w.available = w.available + amt or w.reserved = w.reserved + amt). -/
def bumpBucket (p : ℚ × ℚ) (b : Bucket) (amt : ℚ) : ℚ × ℚ :=
  match b with
  | .available => (p.1 + amt, p.2)
  | .reserved => (p.1, p.2 + amt)

/-- Update the wallet row keyed (uid, cur): the row is looked up (created
with zero balances if absent, which the total-map encoding makes implicit)
and the amount is added to the chosen bucket. -/
def bumpW (w : Int → String → ℚ × ℚ) (uid : Int) (cur : String) (b : Bucket)
    (amt : ℚ) : Int → String → ℚ × ℚ :=
  fun u c => if u = uid ∧ c = cur then bumpBucket (w u c) b amt else w u c

/-- The ledger record written for one entry: Ledger(tx_id, account, amount,
entry_type, ref) with entry_type derived from the sign of the amount. -/
def mkRec (t : Nat) (r : Option String) (e : Entry) : LedgerRec :=
  { tx_id := t, account := e.account, amount := e.amount,
    entry_type := if e.amount > 0 then "credit" else "debit", ref := r }

/-- The wallet-table effect of one entry: when the account matches the user
wallet pattern (parts-zero is user and the bucket is available or reserved),
lock the row, create it at zero if absent, and add the amount to the matching
bucket; any other account leaves the wallet table untouched. -/
def applyW (w : Int → String → ℚ × ℚ) (e : Entry) : Int → String → ℚ × ℚ :=
  match e.account with
  | .user uid cur b => bumpW w uid cur b e.amount
  | _ => w

/-- One iteration of the loop body of post_transaction: add the ledger
record, then apply the entry to the wallet table. -/
def applyEntry (t : Nat) (r : Option String) (s : DBState) (e : Entry) : DBState :=
  { ledger := s.ledger ++ [mkRec t r e], wallets := applyW s.wallets e,
    nextTx := s.nextTx }

/-- Sum of the amounts of an entries list (the total computed first by
post_transaction). -/
def entriesSum (es : List Entry) : ℚ :=
  (es.map Entry.amount).sum

/-- ledger.post_transaction: generate a fresh tx id, reject the call when the
amounts do not sum to zero, otherwise process the entries in the order given
and commit; returns the tx id. -/
def post_transaction (es : List Entry) (r : Option String) (s : DBState) :
    Except String (Nat × DBState) :=
  let t := s.nextTx
  if entriesSum es ≠ 0 then
    Except.error "transaction not balanced"
  else
    let s2 := es.foldl (applyEntry t r) s
    Except.ok (t, { s2 with nextTx := s.nextTx + 1 })

/-- The entries list built by wallet.deposit. -/
def depositEntries (uid : Int) (cur : String) (a : ℚ) : List Entry :=
  [⟨.user uid cur .available, a⟩, ⟨.extBank cur, -a⟩]

/-- wallet.deposit: credit the user available account, debit external bank. -/
def deposit (uid : Int) (cur : String) (a : ℚ) (s : DBState) :
    Except String (Nat × DBState) :=
  post_transaction (depositEntries uid cur a) (some "deposit") s

/-- The entries list built by ledger.create_reserve. -/
def reserveEntries (uid : Int) (cur : String) (a : ℚ) : List Entry :=
  [⟨.user uid cur .reserved, a⟩, ⟨.user uid cur .available, -a⟩]

/-- ledger.create_reserve: credit reserved, debit available. -/
def create_reserve (uid : Int) (cur : String) (a : ℚ) (s : DBState) :
    Except String (Nat × DBState) :=
  post_transaction (reserveEntries uid cur a) (some "reserve") s

/-- wallet.reserve is a direct call to create_reserve. -/
def reserve (uid : Int) (cur : String) (a : ℚ) (s : DBState) :
    Except String (Nat × DBState) :=
  create_reserve uid cur a s

/-- The entries list built by ledger.release_reserve. -/
def releaseEntries (uid : Int) (cur : String) (a : ℚ) : List Entry :=
  [⟨.user uid cur .reserved, -a⟩, ⟨.user uid cur .available, a⟩]

/-- ledger.release_reserve: debit reserved, credit available. -/
def release_reserve (uid : Int) (cur : String) (a : ℚ) (s : DBState) :
    Except String (Nat × DBState) :=
  post_transaction (releaseEntries uid cur a) (some "release") s

/-- wallet.release is a direct call to release_reserve. -/
def release (uid : Int) (cur : String) (a : ℚ) (s : DBState) :
    Except String (Nat × DBState) :=
  release_reserve uid cur a s

/-- The entries list built by wallet.settle: always three entries, the
platform-fee entry is posted even when the fee is zero. -/
def settleEntries (f t : Int) (cur : String) (amt fee : ℚ) : List Entry :=
  [⟨.user f cur .reserved, -amt⟩,
   ⟨.user t cur .available, amt - fee⟩,
   ⟨.platformFees cur, fee⟩]

/-- wallet.settle: debit the payer reserved account by the amount, credit the
receiver available account with amount minus fee, credit platform fees. -/
def settle (f t : Int) (cur : String) (amt fee : ℚ) (s : DBState) :
    Except String (Nat × DBState) :=
  post_transaction (settleEntries f t cur amt fee) (some "settle") s

/-- The entries list built by ledger.settle_trade: the platform-fee entry is
appended only when the fee is nonzero. -/
def settleTradeEntries (f t : Int) (cur : String) (amt fee : ℚ) : List Entry :=
  let es := [⟨Account.user f cur .reserved, -amt⟩,
             ⟨Account.user t cur .available, amt - fee⟩]
  if fee ≠ 0 then es ++ [⟨Account.platformFees cur, fee⟩] else es

/-- ledger.settle_trade. -/
def settle_trade (f t : Int) (cur : String) (amt fee : ℚ) (s : DBState) :
    Except String (Nat × DBState) :=
  post_transaction (settleTradeEntries f t cur amt fee) (some "settle") s

/-- The state after a call: the new state on success; on an exception the
transaction is rolled back and the state is unchanged. -/
def runState (r : Except String (Nat × DBState)) (s : DBState) : DBState :=
  match r with
  | .ok (_, s1) => s1
  | .error _ => s

/-- Whether a call returned normally (no exception raised). -/
def okB (r : Except String (Nat × DBState)) : Bool :=
  match r with
  | .ok _ => true
  | .error _ => false

/-- The available column of the wallet row keyed (uid, cur). -/
def availBal (s : DBState) (uid : Int) (cur : String) : ℚ :=
  (s.wallets uid cur).1

/-- The reserved column of the wallet row keyed (uid, cur). -/
def reservedBal (s : DBState) (uid : Int) (cur : String) : ℚ :=
  (s.wallets uid cur).2

/-- Sum of the amounts of the ledger records carrying a given tx id
(the per-transaction group of the SQL GROUP BY tx_id view). -/
def txSum (l : List LedgerRec) (t : Nat) : ℚ :=
  match l with
  | [] => 0
  | rec :: rest => (if rec.tx_id = t then rec.amount else 0) + txSum rest t

/-- SELECT SUM(amount) FROM ledger for one account key (the aggregate the
reconciler and the auditor read). -/
def sumByAccount (l : List LedgerRec) (a : Account) : ℚ :=
  match l with
  | [] => 0
  | rec :: rest => (if rec.account = a then rec.amount else 0) + sumByAccount rest a

/-- Whether an account key has user scope (acc.startswith of the user prefix
in reconcile, parts-zero equals user in post_transaction). -/
def isUserAccount : Account → Bool
  | .user _ _ _ => true
  | _ => false

/-- The wallet-table value the reconciler compares a user account against:
the matching bucket of the Wallet row, a missing row read as zero
(wallet_map.get with default zero). Non-user accounts have no wallet value. -/
def walletValueA (s : DBState) : Account → ℚ
  | .user uid cur .available => (s.wallets uid cur).1
  | .user uid cur .reserved => (s.wallets uid cur).2
  | _ => 0

/-- demo/reconcile.reconcile: aggregate the ledger by account, then for every
user-scope account in that aggregate compare the ledger sum with the wallet
bucket and report each mismatch as (account, ledgerSum, walletValue).
The function only reads the two tables; it is a pure observation of the
state and writes nothing. -/
def reconcile (s : DBState) : List (Account × ℚ × ℚ) :=
  ((s.ledger.map LedgerRec.account).dedup).filterMap (fun acc =>
    if isUserAccount acc then
      let v := sumByAccount s.ledger acc
      let wv := walletValueA s acc
      if wv ≠ v then some (acc, v, wv) else none
    else none)

/-- The sequence of wallet-row locks taken by post_transaction for a given
entries list: the loop issues one with-for-update query per user-scope entry,
in the order the entries appear, keyed by (user_id, currency). -/
def lockSeq (es : List Entry) : List (Int × String) :=
  es.filterMap (fun e =>
    match e.account with
    | .user uid cur _ => some (uid, cur)
    | _ => none)

/-- A lock sequence is sorted by the (user_id, currency) key in the
lexicographic order the specification prescribes. -/
def sortedLocks (l : List (Int × String)) : Prop :=
  List.Chain' (fun p q => p.1 < q.1 ∨ (p.1 = q.1 ∧ p.2 ≤ q.2)) l

/-- States reachable from the empty database through the public operations
(each successful call steps the state; a failed call leaves it unchanged).
The raw post_transaction step subsumes the named operations but the named
steps are kept explicit because the claims name them. -/
inductive Reachable : DBState → Prop where
  | init : Reachable initState
  | stepPost {s s1 : DBState} {es r t} : Reachable s →
      post_transaction es r s = .ok (t, s1) → Reachable s1
  | stepDeposit {s s1 : DBState} {uid cur a t} : Reachable s →
      deposit uid cur a s = .ok (t, s1) → Reachable s1
  | stepReserve {s s1 : DBState} {uid cur a t} : Reachable s →
      reserve uid cur a s = .ok (t, s1) → Reachable s1
  | stepRelease {s s1 : DBState} {uid cur a t} : Reachable s →
      release uid cur a s = .ok (t, s1) → Reachable s1
  | stepSettle {s s1 : DBState} {f g cur amt fee t} : Reachable s →
      settle f g cur amt fee s = .ok (t, s1) → Reachable s1
  | stepSettleTrade {s s1 : DBState} {f g cur amt fee t} : Reachable s →
      settle_trade f g cur amt fee s = .ok (t, s1) → Reachable s1

lemma foldl_applyEntry_ledger (t : Nat) (r : Option String) :
    ∀ (es : List Entry) (s : DBState),
      (es.foldl (applyEntry t r) s).ledger = s.ledger ++ es.map (mkRec t r) := by
  intro es
  induction es with
  | nil => intro s; simp
  | cons e es ih =>
      intro s
      simp [List.foldl_cons, ih, applyEntry]

lemma foldl_applyEntry_wallets (t : Nat) (r : Option String) :
    ∀ (es : List Entry) (s : DBState),
      (es.foldl (applyEntry t r) s).wallets = es.foldl applyW s.wallets := by
  intro es
  induction es with
  | nil => intro s; simp
  | cons e es ih =>
      intro s
      simp [List.foldl_cons, ih, applyEntry]

lemma foldl_applyEntry_nextTx (t : Nat) (r : Option String) :
    ∀ (es : List Entry) (s : DBState),
      (es.foldl (applyEntry t r) s).nextTx = s.nextTx := by
  intro es
  induction es with
  | nil => intro s; simp
  | cons e es ih =>
      intro s
      simp [List.foldl_cons, ih, applyEntry]

/-- Successful posting, in explicit form: the ledger records of the entries
are appended in order under the fresh tx id, the wallet table is folded over
the entries, and the tx counter advances. -/
lemma post_ok_eq (es : List Entry) (r : Option String) (s : DBState)
    (h : entriesSum es = 0) :
    post_transaction es r s = Except.ok (s.nextTx,
      { ledger := s.ledger ++ es.map (mkRec s.nextTx r),
        wallets := es.foldl applyW s.wallets,
        nextTx := s.nextTx + 1 }) := by
  simp only [post_transaction, h, ne_eq, not_true_eq_false, if_false,
    ite_false]
  congr 1
  ext : 1
  · rfl
  · simp [foldl_applyEntry_ledger, foldl_applyEntry_wallets]

/-- An unbalanced entries list raises before anything is written. -/
lemma post_err (es : List Entry) (r : Option String) (s : DBState)
    (h : entriesSum es ≠ 0) :
    post_transaction es r s = Except.error "transaction not balanced" := by
  simp [post_transaction, h]

/-- Inversion of a successful post. -/
lemma post_ok_inv {es : List Entry} {r : Option String} {s s1 : DBState}
    {t : Nat} (h : post_transaction es r s = Except.ok (t, s1)) :
    entriesSum es = 0 ∧ t = s.nextTx ∧
      s1 = { ledger := s.ledger ++ es.map (mkRec s.nextTx r),
             wallets := es.foldl applyW s.wallets,
             nextTx := s.nextTx + 1 } := by
  by_cases hz : entriesSum es = 0
  · rw [post_ok_eq es r s hz] at h
    have heq := Except.ok.inj h
    refine ⟨hz, ?_, ?_⟩
    · exact (congrArg Prod.fst heq).symm
    · exact (congrArg Prod.snd heq).symm
  · rw [post_err es r s hz] at h
    cases h

lemma txSum_append (l1 l2 : List LedgerRec) (t : Nat) :
    txSum (l1 ++ l2) t = txSum l1 t + txSum l2 t := by
  induction l1 with
  | nil => simp [txSum]
  | cons rec rest ih => simp [txSum, ih]; ring

lemma txSum_map_mkRec (t : Nat) (r : Option String) (es : List Entry)
    (t1 : Nat) :
    txSum (es.map (mkRec t r)) t1 = if t1 = t then entriesSum es else 0 := by
  induction es with
  | nil => simp [txSum, entriesSum]
  | cons e es ih =>
      simp [txSum, entriesSum, mkRec, ih]
      by_cases h : t1 = t
      · simp [h, entriesSum]
      · have h2 : ¬ t = t1 := fun hh => h hh.symm
        simp [h, h2]

lemma sumByAccount_append (l1 l2 : List LedgerRec) (a : Account) :
    sumByAccount (l1 ++ l2) a = sumByAccount l1 a + sumByAccount l2 a := by
  induction l1 with
  | nil => simp [sumByAccount]
  | cons rec rest ih => simp [sumByAccount, ih]; ring

lemma bumpW_fst_of_reserved (w : Int → String → ℚ × ℚ) (uid : Int)
    (cur : String) (amt : ℚ) (u : Int) (c : String) :
    ((bumpW w uid cur .reserved amt) u c).1 = (w u c).1 := by
  unfold bumpW bumpBucket
  split <;> rfl

lemma bumpW_snd_of_available (w : Int → String → ℚ × ℚ) (uid : Int)
    (cur : String) (amt : ℚ) (u : Int) (c : String) :
    ((bumpW w uid cur .available amt) u c).2 = (w u c).2 := by
  unfold bumpW bumpBucket
  split <;> rfl

lemma bumpW_self_available (w : Int → String → ℚ × ℚ) (uid : Int)
    (cur : String) (amt : ℚ) :
    ((bumpW w uid cur .available amt) uid cur).1 = (w uid cur).1 + amt := by
  simp [bumpW, bumpBucket]

lemma bumpW_self_reserved (w : Int → String → ℚ × ℚ) (uid : Int)
    (cur : String) (amt : ℚ) :
    ((bumpW w uid cur .reserved amt) uid cur).2 = (w uid cur).2 + amt := by
  simp [bumpW, bumpBucket]

lemma entriesSum_deposit (uid : Int) (cur : String) (a : ℚ) :
    entriesSum (depositEntries uid cur a) = 0 := by
  simp only [entriesSum, depositEntries, List.map_cons, List.map_nil,
    List.sum_cons, List.sum_nil]
  ring

lemma entriesSum_reserve (uid : Int) (cur : String) (a : ℚ) :
    entriesSum (reserveEntries uid cur a) = 0 := by
  simp only [entriesSum, reserveEntries, List.map_cons, List.map_nil,
    List.sum_cons, List.sum_nil]
  ring

lemma entriesSum_release (uid : Int) (cur : String) (a : ℚ) :
    entriesSum (releaseEntries uid cur a) = 0 := by
  simp only [entriesSum, releaseEntries, List.map_cons, List.map_nil,
    List.sum_cons, List.sum_nil]
  ring

lemma entriesSum_settle (f t : Int) (cur : String) (amt fee : ℚ) :
    entriesSum (settleEntries f t cur amt fee) = 0 := by
  simp only [entriesSum, settleEntries, List.map_cons, List.map_nil,
    List.sum_cons, List.sum_nil]
  ring

lemma entriesSum_settleTrade (f t : Int) (cur : String) (amt fee : ℚ) :
    entriesSum (settleTradeEntries f t cur amt fee) = 0 := by
  unfold settleTradeEntries
  split
  · simp only [entriesSum, List.map_cons, List.map_nil, List.map_append,
      List.sum_cons, List.sum_nil, List.sum_append]
    ring
  · next h =>
      have hf : fee = 0 := not_ne_iff.mp h
      simp only [entriesSum, List.map_cons, List.map_nil, List.sum_cons,
        List.sum_nil, hf]
      ring

lemma deposit_ok_eq (uid : Int) (cur : String) (a : ℚ) (s : DBState) :
    deposit uid cur a s = Except.ok (s.nextTx,
      { ledger := s.ledger ++
          (depositEntries uid cur a).map (mkRec s.nextTx (some "deposit")),
        wallets := bumpW s.wallets uid cur .available a,
        nextTx := s.nextTx + 1 }) := by
  rw [deposit, post_ok_eq _ _ _ (entriesSum_deposit uid cur a)]
  simp [depositEntries, applyW]

lemma reserve_ok_eq (uid : Int) (cur : String) (a : ℚ) (s : DBState) :
    reserve uid cur a s = Except.ok (s.nextTx,
      { ledger := s.ledger ++
          (reserveEntries uid cur a).map (mkRec s.nextTx (some "reserve")),
        wallets := bumpW (bumpW s.wallets uid cur .reserved a)
          uid cur .available (-a),
        nextTx := s.nextTx + 1 }) := by
  rw [reserve, create_reserve, post_ok_eq _ _ _ (entriesSum_reserve uid cur a)]
  simp [reserveEntries, applyW]

lemma release_ok_eq (uid : Int) (cur : String) (a : ℚ) (s : DBState) :
    release uid cur a s = Except.ok (s.nextTx,
      { ledger := s.ledger ++
          (releaseEntries uid cur a).map (mkRec s.nextTx (some "release")),
        wallets := bumpW (bumpW s.wallets uid cur .reserved (-a))
          uid cur .available a,
        nextTx := s.nextTx + 1 }) := by
  rw [release, release_reserve, post_ok_eq _ _ _ (entriesSum_release uid cur a)]
  simp [releaseEntries, applyW]

lemma settle_ok_eq (f t : Int) (cur : String) (amt fee : ℚ) (s : DBState) :
    settle f t cur amt fee s = Except.ok (s.nextTx,
      { ledger := s.ledger ++
          (settleEntries f t cur amt fee).map (mkRec s.nextTx (some "settle")),
        wallets := bumpW (bumpW s.wallets f cur .reserved (-amt))
          t cur .available (amt - fee),
        nextTx := s.nextTx + 1 }) := by
  rw [settle, post_ok_eq _ _ _ (entriesSum_settle f t cur amt fee)]
  simp [settleEntries, applyW]

lemma settleTrade_foldl_applyW (f t : Int) (cur : String) (amt fee : ℚ)
    (w : Int → String → ℚ × ℚ) :
    (settleTradeEntries f t cur amt fee).foldl applyW w
      = bumpW (bumpW w f cur .reserved (-amt)) t cur .available (amt - fee) := by
  unfold settleTradeEntries
  split <;> simp [applyW]

lemma settle_trade_ok_eq (f t : Int) (cur : String) (amt fee : ℚ) (s : DBState) :
    settle_trade f t cur amt fee s = Except.ok (s.nextTx,
      { ledger := s.ledger ++
          (settleTradeEntries f t cur amt fee).map (mkRec s.nextTx (some "settle")),
        wallets := bumpW (bumpW s.wallets f cur .reserved (-amt))
          t cur .available (amt - fee),
        nextTx := s.nextTx + 1 }) := by
  rw [settle_trade, post_ok_eq _ _ _ (entriesSum_settleTrade f t cur amt fee)]
  rw [settleTrade_foldl_applyW]

lemma sumByAccount_settle_platform (f t : Int) (cur : String) (amt fee : ℚ)
    (n : Nat) (r : Option String) :
    sumByAccount ((settleEntries f t cur amt fee).map (mkRec n r))
      (.platformFees cur) = fee := by
  simp [settleEntries, sumByAccount, mkRec]

lemma sumByAccount_settleTrade_platform (f t : Int) (cur : String)
    (amt fee : ℚ) (n : Nat) (r : Option String) :
    sumByAccount ((settleTradeEntries f t cur amt fee).map (mkRec n r))
      (.platformFees cur) = fee := by
  unfold settleTradeEntries
  split
  · simp [sumByAccount, mkRec]
  · next h =>
      simp [sumByAccount, mkRec]
      exact (not_ne_iff.mp h).symm

/-- Characterization of the reconciler output: a triple is reported exactly
when its account occurs in the ledger table, has user scope, carries the
ledger aggregate and the wallet value, and the two differ. -/
lemma mem_reconcile_iff (s : DBState) (acc : Account) (v wv : ℚ) :
    (acc, v, wv) ∈ reconcile s ↔
      (acc ∈ s.ledger.map LedgerRec.account ∧ isUserAccount acc = true ∧
        v = sumByAccount s.ledger acc ∧ wv = walletValueA s acc ∧ wv ≠ v) := by
  simp only [reconcile, List.mem_filterMap]
  constructor
  · rintro ⟨a, ha, hf⟩
    by_cases hu : isUserAccount a
    · simp only [hu, if_true] at hf
      by_cases hne : walletValueA s a ≠ sumByAccount s.ledger a
      · rw [if_pos hne] at hf
        have hf2 := Option.some.inj hf
        have h1 : a = acc := congrArg Prod.fst hf2
        have h2 : sumByAccount s.ledger a = v :=
          congrArg (fun p => p.2.1) hf2
        have h3 : walletValueA s a = wv :=
          congrArg (fun p => p.2.2) hf2
        subst h1
        refine ⟨List.mem_dedup.mp ha, hu, h2.symm, h3.symm, ?_⟩
        rw [← h2, ← h3]
        exact hne
      · rw [if_neg hne] at hf
        exact absurd hf (by simp)
    · rw [if_neg hu] at hf
      exact absurd hf (by simp)
  · rintro ⟨hmem, hu, hv, hwv, hne⟩
    refine ⟨acc, List.mem_dedup.mpr hmem, ?_⟩
    subst hv
    subst hwv
    simp [hu, hne]

/-- A database state having one Wallet row (user 1, INR, available 5) but an
empty ledger table. -/
def ghostWalletState : DBState :=
  { ledger := [],
    wallets := fun u c => if u = 1 ∧ c = "INR" then (5, 0) else (0, 0),
    nextTx := 0 }

/-- C8 counterexample: in ghostWalletState the user account for (1, INR,
available) has ledger sum 0 and wallet value 5 — a mismatch — yet reconcile
reports nothing, because the account never occurs in the ledger table. So
reconcile does not examine every account of user scope and does not report
every mismatch. -/
theorem reconcile_misses_mismatch_cex :
    reconcile ghostWalletState = [] ∧
    sumByAccount ghostWalletState.ledger (.user 1 "INR" .available)
      ≠ walletValueA ghostWalletState (.user 1 "INR" .available) := by
  constructor
  · rfl
  · norm_num [sumByAccount, walletValueA, ghostWalletState]

/-- C8 amended: reconcile computes, for every user-scope account KEY THAT
OCCURS IN THE LEDGER TABLE, the ledger sum for that account, compares it with
the matching bucket of the Wallet row (a missing row read as zero), and the
reported triples (account, ledgerSum, walletValue) are exactly the mismatches
among those accounts; reconcile is a pure observation of the state and
writes nothing. -/
theorem reconcile_sound_complete_on_ledger_accounts (s : DBState)
    (acc : Account) (v wv : ℚ) :
    (acc, v, wv) ∈ reconcile s ↔
      (acc ∈ s.ledger.map LedgerRec.account ∧ isUserAccount acc = true ∧
        v = sumByAccount s.ledger acc ∧ wv = walletValueA s acc ∧ wv ≠ v) :=
  mem_reconcile_iff s acc v wv

/-- C10: a Wallet row with a nonzero bucket whose account key has no ledger
entries at all is invisible to reconcile: no discrepancy naming that account
is ever reported, because reconcile iterates only over account keys present
in the ledger table. -/
theorem reconcile_blind_spot (s : DBState) (uid : Int) (cur : String)
    (b : Bucket) (_hnz : walletValueA s (.user uid cur b) ≠ 0)
    (habs : Account.user uid cur b ∉ s.ledger.map LedgerRec.account) :
    Account.user uid cur b ∉ (reconcile s).map Prod.fst := by
  intro hmem
  rcases List.mem_map.mp hmem with ⟨d, hd, hfst⟩
  rcases d with ⟨a, v, wv⟩
  rcases (mem_reconcile_iff s a v wv).mp hd with ⟨hled, -, -, -, -⟩
  have ha : a = Account.user uid cur b := hfst
  rw [ha] at hled
  exact habs hled

/-- C10 witness: in ghostWalletState the wallet row for user 1 holds 5 INR
available while the ledger is empty; reconcile reports nothing about the
account. -/
theorem reconcile_blind_spot_witness :
    Account.user 1 "INR" Bucket.available
      ∉ (reconcile ghostWalletState).map Prod.fst := by
  apply reconcile_blind_spot
  · norm_num [walletValueA, ghostWalletState]
  · simp [ghostWalletState]

/-- C1 counterexample: starting from the empty database (reachable by zero
deposits), a single reserve of 100 INR (no override flag exists anywhere in
the interface) is accepted and drives available for user 1 to -100, below
zero, instead of being rejected. -/
theorem non_negativity_cex :
    okB (reserve 1 "INR" 100 initState) = true ∧
    availBal (runState (reserve 1 "INR" 100 initState) initState) 1 "INR"
      = -100 := by
  rw [reserve_ok_eq]
  norm_num [okB, runState, availBal, bumpW, bumpBucket, initState]

/-- C1 amended: post_transaction performs no non-negativity check, so the
invariant fails: reserve, release and settle are always accepted (only the
zero-sum check can reject), and a call whose amount exceeds the relevant
bucket drives that bucket below zero instead of being rejected. -/
theorem no_non_negativity_check (s : DBState) (uid g : Int) (cur : String)
    (a fee : ℚ) :
    okB (reserve uid cur a s) = true ∧
    okB (release uid cur a s) = true ∧
    okB (settle uid g cur a fee s) = true ∧
    (availBal s uid cur < a →
      availBal (runState (reserve uid cur a s) s) uid cur < 0) ∧
    (reservedBal s uid cur < a →
      reservedBal (runState (release uid cur a s) s) uid cur < 0) := by
  refine ⟨?_, ?_, ?_, ?_, ?_⟩
  · rw [reserve_ok_eq]; rfl
  · rw [release_ok_eq]; rfl
  · rw [settle_ok_eq]; rfl
  · intro h
    rw [reserve_ok_eq]
    simp only [runState, availBal, bumpW_self_available, bumpW_fst_of_reserved]
    dsimp only [availBal] at h
    linarith
  · intro h
    rw [release_ok_eq]
    simp only [runState, reservedBal, bumpW_snd_of_available,
      bumpW_self_reserved]
    dsimp only [reservedBal] at h
    linarith

/-- C1 amended, witness: a reserve of 7 against an empty wallet succeeds and
leaves available negative. -/
theorem no_non_negativity_check_witness :
    okB (reserve 3 "INR" 7 initState) = true ∧
    availBal (runState (reserve 3 "INR" 7 initState) initState) 3 "INR" < 0 := by
  have h := no_non_negativity_check initState 3 4 "INR" 7 0
  refine ⟨h.1, h.2.2.2.1 ?_⟩
  norm_num [availBal, initState]

/-- C2 counterexample: with user 1 holding no reserved INR at all, a settle
of 50 is not rejected with an insufficient-funds error: it returns normally,
writes all three ledger entries of its tx id, and leaves reserved at -50. -/
theorem insufficient_funds_cex :
    okB (settle 1 2 "INR" 50 0 initState) = true ∧
    reservedBal (runState (settle 1 2 "INR" 50 0 initState) initState) 1 "INR"
      = -50 ∧
    (runState (settle 1 2 "INR" 50 0 initState) initState).ledger.length = 3 := by
  rw [settle_ok_eq]
  norm_num [okB, runState, reservedBal, bumpW, bumpBucket, initState,
    settleEntries]

/-- C2 amended: post_transaction performs no balance check at all: a settle
whose amount exceeds the payer's reserved balance still succeeds, its entries
of the attempted tx id are all written, and reserved goes negative; the only
rejection is the pre-lock zero-sum check, and that rejection leaves the
state unchanged (full rollback, no entry of the attempted tx visible). -/
theorem no_insufficient_funds_error (s : DBState) (f g : Int) (cur : String)
    (amt fee : ℚ) (h : reservedBal s f cur < amt) :
    okB (settle f g cur amt fee s) = true ∧
    reservedBal (runState (settle f g cur amt fee s) s) f cur < 0 ∧
    (runState (settle f g cur amt fee s) s).ledger = s.ledger ++
      (settleEntries f g cur amt fee).map (mkRec s.nextTx (some "settle")) ∧
    (∀ (es : List Entry) (r : Option String), entriesSum es ≠ 0 →
      runState (post_transaction es r s) s = s) := by
  refine ⟨?_, ?_, ?_, ?_⟩
  · rw [settle_ok_eq]; rfl
  · rw [settle_ok_eq]
    simp only [runState, reservedBal, bumpW_snd_of_available,
      bumpW_self_reserved]
    dsimp only [reservedBal] at h
    linarith
  · rw [settle_ok_eq]
    rfl
  · intro es r hz
    rw [post_err es r s hz]
    rfl

/-- C2 amended, witness: settling 50 INR from user 1 (reserved balance 0)
succeeds, writes entries, and reserved ends negative. -/
theorem no_insufficient_funds_error_witness :
    okB (settle 1 2 "INR" 50 1 initState) = true ∧
    reservedBal (runState (settle 1 2 "INR" 50 1 initState) initState) 1 "INR"
      < 0 := by
  have h := no_insufficient_funds_error initState 1 2 "INR" 50 1
    (by norm_num [reservedBal, initState])
  exact ⟨h.1, h.2.1⟩

/-- C4 counterexample: for settle from user 2 to user 1 the wallet locks are
taken in the order (2, INR) then (1, INR), which is not sorted by
(user_id, currency); the lock order follows the entry order, so it is not
one deterministic total order over the touched wallet set. -/
theorem lock_order_cex :
    lockSeq (settleEntries 2 1 "INR" 5 0) = [(2, "INR"), (1, "INR")] ∧
    ¬ sortedLocks (lockSeq (settleEntries 2 1 "INR" 5 0)) := by
  constructor
  · rfl
  · intro h
    rcases List.chain'_cons.mp h with ⟨h1, -⟩
    rcases h1 with h2 | h3
    · exact absurd h2 (by norm_num)
    · exact absurd h3.1 (by norm_num)

/-- C4 amended: post_transaction acquires wallet locks in the order the
entries appear in the list (one lock query per user-scope entry), with no
sorting; in particular settle and settle_trade always lock fromUser's wallet
first and toUser's second, reserve/release lock the single touched wallet
twice, and deposit locks it once. -/
theorem lock_order_is_entry_order (f g uid : Int) (cur : String)
    (amt fee a : ℚ) :
    lockSeq (settleEntries f g cur amt fee) = [(f, cur), (g, cur)] ∧
    lockSeq (settleTradeEntries f g cur amt fee) = [(f, cur), (g, cur)] ∧
    lockSeq (reserveEntries uid cur a) = [(uid, cur), (uid, cur)] ∧
    lockSeq (releaseEntries uid cur a) = [(uid, cur), (uid, cur)] ∧
    lockSeq (depositEntries uid cur a) = [(uid, cur)] := by
  refine ⟨rfl, ?_, rfl, rfl, rfl⟩
  unfold settleTradeEntries
  split <;> rfl

/-- A successful post preserves the per-transaction zero-sum property of the
ledger table: the new records all carry the fresh tx id and their amounts are
the entry amounts, whose sum the gate has checked to be zero. -/
lemma txBalanced_post {es : List Entry} {r : Option String} {s s1 : DBState}
    {t : Nat} (h : post_transaction es r s = Except.ok (t, s1))
    (hb : ∀ t1, txSum s.ledger t1 = 0) :
    ∀ t1, txSum s1.ledger t1 = 0 := by
  obtain ⟨hz, -, hs⟩ := post_ok_inv h
  subst hs
  intro t1
  simp [txSum_append, hb, txSum_map_mkRec, hz]

/-- C3: the zero-sum gate. An entries list whose amounts do not sum to zero
is rejected with the unbalanced-transaction error before anything is written
(the state is unchanged); the entry lists constructed by deposit, reserve,
release, settle and settle_trade sum to zero for every amount and fee; and
in every state reachable through the operations, the amounts of every tx id
present in the ledger table sum to zero. -/
theorem zero_sum_gate :
    (∀ (es : List Entry) (r : Option String) (s : DBState),
        entriesSum es ≠ 0 →
          post_transaction es r s = Except.error "transaction not balanced" ∧
          runState (post_transaction es r s) s = s) ∧
    (∀ (uid f g : Int) (cur : String) (a fee : ℚ),
        entriesSum (depositEntries uid cur a) = 0 ∧
        entriesSum (reserveEntries uid cur a) = 0 ∧
        entriesSum (releaseEntries uid cur a) = 0 ∧
        entriesSum (settleEntries f g cur a fee) = 0 ∧
        entriesSum (settleTradeEntries f g cur a fee) = 0) ∧
    (∀ s : DBState, Reachable s → ∀ t : Nat, txSum s.ledger t = 0) := by
  refine ⟨?_, ?_, ?_⟩
  · intro es r s h
    refine ⟨post_err es r s h, ?_⟩
    rw [post_err es r s h]
    rfl
  · intro uid f g cur a fee
    exact ⟨entriesSum_deposit uid cur a, entriesSum_reserve uid cur a,
      entriesSum_release uid cur a, entriesSum_settle f g cur a fee,
      entriesSum_settleTrade f g cur a fee⟩
  · intro s hr
    induction hr with
    | init => intro t; simp [initState, txSum]
    | stepPost hr h ih => exact txBalanced_post h ih
    | stepDeposit hr h ih => exact txBalanced_post h ih
    | stepReserve hr h ih => exact txBalanced_post h ih
    | stepRelease hr h ih => exact txBalanced_post h ih
    | stepSettle hr h ih => exact txBalanced_post h ih
    | stepSettleTrade hr h ih => exact txBalanced_post h ih

/-- C3 witness: a one-sided entry is rejected with the unbalanced error on
the empty database, and the empty database (reachable) has zero tx sums. -/
theorem zero_sum_gate_witness :
    post_transaction [⟨Account.user 1 "INR" Bucket.available, 5⟩] none
        initState = Except.error "transaction not balanced" ∧
    txSum initState.ledger 7 = 0 := by
  have h5 : entriesSum [(⟨Account.user 1 "INR" Bucket.available, 5⟩ : Entry)]
      ≠ 0 := by
    norm_num [entriesSum]
  exact ⟨(zero_sum_gate.1 _ none initState h5).1,
    zero_sum_gate.2.2 initState Reachable.init 7⟩

/-- C5: settlement conservation. For settle (and settle_trade) with
0 ≤ fee ≤ amount the call succeeds, the three posted amounts are -amount,
amount - fee and fee, which sum to zero by construction, and the quantity
(fromUser reserved) + (toUser available) + (ledger sum of the platform fee
account) is identical before and after the call. -/
theorem settlement_conservation (s : DBState) (f g : Int) (cur : String)
    (amt fee : ℚ) (_h0 : 0 ≤ fee) (_h1 : fee ≤ amt) :
    okB (settle f g cur amt fee s) = true ∧
    (settleEntries f g cur amt fee).map Entry.amount = [-amt, amt - fee, fee] ∧
    entriesSum (settleEntries f g cur amt fee) = 0 ∧
    reservedBal (runState (settle f g cur amt fee s) s) f cur
        + availBal (runState (settle f g cur amt fee s) s) g cur
        + sumByAccount (runState (settle f g cur amt fee s) s).ledger
            (.platformFees cur)
      = reservedBal s f cur + availBal s g cur
        + sumByAccount s.ledger (.platformFees cur) ∧
    okB (settle_trade f g cur amt fee s) = true ∧
    reservedBal (runState (settle_trade f g cur amt fee s) s) f cur
        + availBal (runState (settle_trade f g cur amt fee s) s) g cur
        + sumByAccount (runState (settle_trade f g cur amt fee s) s).ledger
            (.platformFees cur)
      = reservedBal s f cur + availBal s g cur
        + sumByAccount s.ledger (.platformFees cur) := by
  refine ⟨?_, ?_, entriesSum_settle f g cur amt fee, ?_, ?_, ?_⟩
  · rw [settle_ok_eq]; rfl
  · simp [settleEntries]
  · rw [settle_ok_eq]
    simp only [runState, reservedBal, availBal, bumpW_snd_of_available,
      bumpW_self_reserved, bumpW_self_available, bumpW_fst_of_reserved,
      sumByAccount_append, sumByAccount_settle_platform]
    ring
  · rw [settle_trade_ok_eq]; rfl
  · rw [settle_trade_ok_eq]
    simp only [runState, reservedBal, availBal, bumpW_snd_of_available,
      bumpW_self_reserved, bumpW_self_available, bumpW_fst_of_reserved,
      sumByAccount_append, sumByAccount_settleTrade_platform]
    ring

/-- C5 witness: settle 50 INR with fee 1 from user 1 to user 2 on the empty
database conserves reserved + available + platform fees. -/
theorem settlement_conservation_witness :
    (0 : ℚ) ≤ 1 ∧ (1 : ℚ) ≤ 50 ∧
    reservedBal (runState (settle 1 2 "INR" 50 1 initState) initState) 1 "INR"
        + availBal (runState (settle 1 2 "INR" 50 1 initState) initState)
            2 "INR"
        + sumByAccount (runState (settle 1 2 "INR" 50 1 initState)
            initState).ledger (.platformFees "INR")
      = reservedBal initState 1 "INR" + availBal initState 2 "INR"
        + sumByAccount initState.ledger (.platformFees "INR") := by
  have h := settlement_conservation initState 1 2 "INR" 50 1 (by norm_num)
    (by norm_num)
  exact ⟨by norm_num, by norm_num, h.2.2.2.1⟩

/-- C6: reservation round-trip. With sufficient available balance, a reserve
of an amount followed by a release of the same amount both succeed and leave
the available and reserved values of that wallet exactly as they were before
the reserve. -/
theorem reservation_round_trip (s : DBState) (uid : Int) (cur : String)
    (a : ℚ) (_hsuff : a ≤ availBal s uid cur) :
    okB (reserve uid cur a s) = true ∧
    okB (release uid cur a (runState (reserve uid cur a s) s)) = true ∧
    availBal (runState (release uid cur a (runState (reserve uid cur a s) s))
        (runState (reserve uid cur a s) s)) uid cur = availBal s uid cur ∧
    reservedBal (runState (release uid cur a (runState (reserve uid cur a s) s))
        (runState (reserve uid cur a s) s)) uid cur = reservedBal s uid cur := by
  rw [reserve_ok_eq]
  simp only [runState]
  rw [release_ok_eq]
  simp only [runState, okB]
  refine ⟨trivial, trivial, ?_, ?_⟩
  · simp only [availBal, bumpW_self_available, bumpW_fst_of_reserved]
    ring
  · simp only [reservedBal, bumpW_snd_of_available, bumpW_self_reserved]
    ring

/-- C6 witness: reserving and releasing 0 INR on the empty database leaves
both buckets at their original values. -/
theorem reservation_round_trip_witness :
    (0 : ℚ) ≤ availBal initState 1 "INR" ∧
    availBal (runState (release 1 "INR" 0 (runState (reserve 1 "INR" 0
        initState) initState)) (runState (reserve 1 "INR" 0 initState)
        initState)) 1 "INR" = availBal initState 1 "INR" := by
  have h := reservation_round_trip initState 1 "INR" 0
    (by norm_num [availBal, initState])
  exact ⟨by norm_num [availBal, initState], h.2.2.1⟩

/-- The state after the deposit of scenario 1 (deposit 1000 INR to user 1
on the empty database). -/
def demoS1 : DBState := runState (deposit 1 "INR" 1000 initState) initState

/-- The state after the reserve of scenario 1 (reserve 100 INR for user 1). -/
def demoS2 : DBState := runState (reserve 1 "INR" 100 demoS1) demoS1

/-- The state after the settle of scenario 1 (settle 50 INR from user 1 to
user 2 with fee 1). -/
def demoS3 : DBState := runState (settle 1 2 "INR" 50 1 demoS2) demoS2

/-- C7: concrete scenario 1. From the empty database, deposit 1000 INR to
user 1 gives available 1000 and reserved 0; reserve 100 gives available 900
and reserved 100; settle 50 to user 2 with fee 1 gives user 1 reserved 50,
user 2 available 49, and raises the platform fee account ledger sum by 1. -/
theorem concrete_happy_path :
    okB (deposit 1 "INR" 1000 initState) = true ∧
    availBal demoS1 1 "INR" = 1000 ∧ reservedBal demoS1 1 "INR" = 0 ∧
    okB (reserve 1 "INR" 100 demoS1) = true ∧
    availBal demoS2 1 "INR" = 900 ∧ reservedBal demoS2 1 "INR" = 100 ∧
    okB (settle 1 2 "INR" 50 1 demoS2) = true ∧
    reservedBal demoS3 1 "INR" = 50 ∧
    availBal demoS3 2 "INR" = 49 ∧
    sumByAccount demoS3.ledger (.platformFees "INR")
      = sumByAccount demoS2.ledger (.platformFees "INR") + 1 := by
  have e1 := deposit_ok_eq 1 "INR" 1000 initState
  have e2 := reserve_ok_eq 1 "INR" 100 demoS1
  have e3 := settle_ok_eq 1 2 "INR" 50 1 demoS2
  refine ⟨?_, ?_, ?_, ?_, ?_, ?_, ?_, ?_, ?_, ?_⟩
  · rw [e1]; rfl
  · simp only [demoS1, e1, runState, availBal]
    norm_num [bumpW, bumpBucket, initState]
  · simp only [demoS1, e1, runState, reservedBal]
    norm_num [bumpW, bumpBucket, initState]
  · rw [e2]; rfl
  · simp only [demoS2, e2, runState, availBal]
    simp only [demoS1, e1, runState]
    norm_num [bumpW, bumpBucket, initState]
  · simp only [demoS2, e2, runState, reservedBal]
    simp only [demoS1, e1, runState]
    norm_num [bumpW, bumpBucket, initState]
  · rw [e3]; rfl
  · simp only [demoS3, e3, runState, reservedBal]
    simp only [demoS2, e2, runState]
    simp only [demoS1, e1, runState]
    norm_num [bumpW, bumpBucket, initState]
  · simp only [demoS3, e3, runState, availBal]
    simp only [demoS2, e2, runState]
    simp only [demoS1, e1, runState]
    norm_num [bumpW, bumpBucket, initState]
  · simp only [demoS3, e3, runState]
    rw [sumByAccount_append, sumByAccount_settle_platform]

/-- C9: there is no positivity validation at the public interface. For every
amount, positive or not, the entry pairs constructed by deposit, reserve,
release and settle sum to zero and the calls succeed; the balances move by
the signed amount, so a negative amount moves funds in the reverse
direction: a negative reserve increases available and decreases reserved,
and a negative deposit decreases the user's available balance. -/
theorem no_positivity_validation (s : DBState) (uid g : Int) (cur : String)
    (a fee : ℚ) :
    entriesSum (depositEntries uid cur a) = 0 ∧
    entriesSum (reserveEntries uid cur a) = 0 ∧
    entriesSum (releaseEntries uid cur a) = 0 ∧
    entriesSum (settleEntries uid g cur a fee) = 0 ∧
    okB (deposit uid cur a s) = true ∧
    okB (reserve uid cur a s) = true ∧
    okB (release uid cur a s) = true ∧
    okB (settle uid g cur a fee s) = true ∧
    availBal (runState (deposit uid cur a s) s) uid cur
      = availBal s uid cur + a ∧
    availBal (runState (reserve uid cur a s) s) uid cur
      = availBal s uid cur - a ∧
    reservedBal (runState (reserve uid cur a s) s) uid cur
      = reservedBal s uid cur + a ∧
    (a < 0 →
      availBal (runState (reserve uid cur a s) s) uid cur > availBal s uid cur ∧
      reservedBal (runState (reserve uid cur a s) s) uid cur
        < reservedBal s uid cur ∧
      availBal (runState (deposit uid cur a s) s) uid cur
        < availBal s uid cur) := by
  have hda : availBal (runState (deposit uid cur a s) s) uid cur
      = availBal s uid cur + a := by
    rw [deposit_ok_eq]
    simp only [runState, availBal, bumpW_self_available]
  have hra : availBal (runState (reserve uid cur a s) s) uid cur
      = availBal s uid cur - a := by
    rw [reserve_ok_eq]
    simp only [runState, availBal, bumpW_self_available, bumpW_fst_of_reserved]
    ring
  have hrr : reservedBal (runState (reserve uid cur a s) s) uid cur
      = reservedBal s uid cur + a := by
    rw [reserve_ok_eq]
    simp only [runState, reservedBal, bumpW_snd_of_available,
      bumpW_self_reserved]
  refine ⟨entriesSum_deposit uid cur a, entriesSum_reserve uid cur a,
    entriesSum_release uid cur a, entriesSum_settle uid g cur a fee,
    ?_, ?_, ?_, ?_, hda, hra, hrr, ?_⟩
  · rw [deposit_ok_eq]; rfl
  · rw [reserve_ok_eq]; rfl
  · rw [release_ok_eq]; rfl
  · rw [settle_ok_eq]; rfl
  · intro hneg
    refine ⟨?_, ?_, ?_⟩
    · rw [hra]; linarith
    · rw [hrr]; linarith
    · rw [hda]; linarith

/-- C9 witness: a reserve of -5 on the empty database succeeds and moves
funds in reverse, available ends above and reserved below their prior
values; a deposit of -5 lowers available. -/
theorem no_positivity_validation_witness :
    okB (reserve 1 "INR" (-5) initState) = true ∧
    availBal (runState (reserve 1 "INR" (-5) initState) initState) 1 "INR"
      > availBal initState 1 "INR" ∧
    reservedBal (runState (reserve 1 "INR" (-5) initState) initState) 1 "INR"
      < reservedBal initState 1 "INR" ∧
    availBal (runState (deposit 1 "INR" (-5) initState) initState) 1 "INR"
      < availBal initState 1 "INR" := by
  have h := no_positivity_validation initState 1 2 "INR" (-5) 0
  have hneg := h.2.2.2.2.2.2.2.2.2.2.2 (by norm_num)
  exact ⟨h.2.2.2.2.2.1, hneg.1, hneg.2.1, hneg.2.2⟩

/-- A database whose ledger holds one credit of 5 INR to user 1 available
while the wallet table is empty: a genuine mismatch the reconciler must and
does report. -/
def mismatchState : DBState :=
  { ledger := [{ tx_id := 0, account := .user 1 "INR" .available, amount := 5,
                 entry_type := "credit", ref := none }],
    wallets := fun _ _ => (0, 0), nextTx := 1 }

/-- C8 amended, witness: in mismatchState the reconciler reports exactly the
triple for the user account present in the ledger whose ledger sum 5 differs
from the wallet value 0. -/
theorem reconcile_sound_complete_witness :
    (Account.user 1 "INR" Bucket.available, (5 : ℚ), (0 : ℚ))
      ∈ reconcile mismatchState := by
  apply (reconcile_sound_complete_on_ledger_accounts mismatchState
    (Account.user 1 "INR" Bucket.available) 5 0).mpr
  refine ⟨?_, rfl, ?_, ?_, ?_⟩
  · simp [mismatchState]
  · norm_num [mismatchState, sumByAccount]
  · norm_num [mismatchState, walletValueA]
  · norm_num
